import Mathlib

/-!
Verification of the libcsv single-header CSV library.

The embedding models the C sources shallowly:
* a field's text is a `List Char` (the bytes of the C string before its
  terminating null byte); the stored `length` field of `CSV_FIELD` is kept
  explicitly, exactly as the C code maintains it (`strlen(text) + 1`);
* the `CSV_BUFFER` keeps its rows as `List (List CSV_FIELD)`; the C code's
  `rows` counter is the list length and the per-row `width` bookkeeping is
  each inner list's length (the C code updates both in lock-step on every
  mutation);
* a character stream (`FILE *`) is a `List Char`; `getc` takes the head and
  end of file is the empty list;
* `size_t` subtraction `n - 1`, which wraps around at zero, is modelled by
  `sizeSub1` (arithmetic modulo 2^64);
* reads through an out-of-range index whose value is actually used are
  modelled by `Option` (`none` = the C code performs an undefined read);
* allocation is assumed to succeed everywhere except in `csv_load`, whose
  claim is about allocation failure: there an explicit oracle (a list of
  booleans, one per `append_row` / `append_field` call, empty list meaning
  every allocation succeeds) decides which growth steps fail.
-/

/-- `CSV_FIELD`: text payload plus the stored length (`strlen(text) + 1`
for every field the library creates). -/
structure CSV_FIELD where
  text : List Char
  length : Nat
deriving DecidableEq

/-- `set_field`: overwrite a field's text; the stored length becomes
`strlen(text) + 1`.  (The reallocation is assumed to succeed.) -/
def set_field (_f : CSV_FIELD) (text : List Char) : CSV_FIELD :=
  { text := text, length := text.length + 1 }

/-- `create_field`: a freshly allocated field; the C code sets
`length = 0`, `text = NULL` and then calls `set_field(field, "\0")`. -/
def create_field : CSV_FIELD :=
  set_field { text := [], length := 0 } []

/-- `CSV_BUFFER`: the ragged table (`field` / `rows` / `width` of the C
struct collapse to one list of rows) plus its two delimiters. -/
structure CSV_BUFFER where
  field : List (List CSV_FIELD)
  field_delim : Char
  text_delim : Char
deriving DecidableEq

/-- `csv_create_buffer`: empty buffer, delimiters `,` and `"`. -/
def csv_create_buffer : CSV_BUFFER :=
  { field := [], field_delim := ',', text_delim := '"' }

/-- The null character, used by the C code as string terminator / filler. -/
def nul : Char := Char.ofNat 0

/-- `size_t` decrement: `n - 1` computed in `size_t` arithmetic, so `0 - 1`
wraps to `2^64 - 1`.  (All reachable counts are far below `2^64`.) -/
def sizeSub1 (n : Nat) : Nat := (n + (2 ^ 64 - 1)) % 2 ^ 64

/-- In-place update of one list entry (no-op when the index is out of
range). -/
def listModify {α : Type} (l : List α) (n : Nat) (f : α → α) : List α :=
  match l.get? n with
  | none => l
  | some a => l.set n (f a)

/-- Write text `t` into cell `(i, e)` of the row list via `set_field`,
as `read_next_field` does into `buffer->field[i][j-1]`. -/
def updateCell (rows : List (List CSV_FIELD)) (i e : Nat) (t : List Char) :
    List (List CSV_FIELD) :=
  listModify rows i (fun r => listModify r e (fun f => set_field f t))

/-!
## Tokenizer (`read_next_field`)

Phase 1 (the `while (!done)` accumulation loop): the C code keeps the
growing string `tmp` together with the write position `c`; `add_char`
reallocates `tmp` to `c + 2` bytes, writes the character at index `c` and a
null byte after it, so after an `add_char` the C-string value of `tmp` is
`tmp.take c ++ [ch]`.  On a text delimiter met outside quotes the code sets
`c = 0` but leaves the bytes of `tmp` in place, so the previously
accumulated text survives until (and unless) it is overwritten.  The state
is `(input, s, c, in_text, esc)` where `s` is the current C-string value of
`tmp`; the result is `(s, last char read (none = EOF), rest of stream)`.
-/
def accumField (fd td : Char) :
    List Char → List Char → Nat → Bool → Bool →
    List Char × Option Char × List Char
  | [], s, _, _, _ => (s, none, [])
  | ch :: rest, s, c, in_text, esc =>
    if !in_text then
      if ch = td then accumField fd td rest s 0 true false
      else if ch = fd then (s, some ch, rest)
      else if ch = '\n' then (s, some ch, rest)
      else accumField fd td rest (s.take c ++ [ch]) (c + 1) false false
    else
      if esc then
        if ch = td then accumField fd td rest (s.take c ++ [ch]) (c + 1) true false
        else (s, some ch, rest)
      else
        if ch = td then accumField fd td rest s c true true
        else accumField fd td rest (s.take c ++ [ch]) (c + 1) true false

/-- Phase 2 of `read_next_field`: starting from the character `ch` on which
accumulation stopped, skip forward to the terminator and classify it
(`0` same row, `1` new row, `2` end of stream).  A newline whose peeked
successor is EOF is classified `2`; the peek is position-restoring. -/
def termScan (fd : Char) : Option Char → List Char → Nat × List Char
  | none, input => (2, input)
  | some ch, input =>
    if ch = fd then (0, input)
    else if ch = '\n' then
      match input with
      | [] => (2, [])
      | _ :: _ => (1, input)
    else
      match input with
      | [] => (2, [])
      | x :: rest => termScan fd (some x) rest

/-- `read_next_field`: produce the next field's text, the terminator code
and the rest of the stream. -/
def read_next_field (fd td : Char) (input : List Char) :
    List Char × Nat × List Char :=
  let a := accumField fd td input [] 0 false false
  let t := termScan fd a.2.1 a.2.2
  (a.1, t.1, t.2)

/-!
## Mutator algebra

The mutators are modelled on the rows list (`buffer->field` together with
its `rows` / `width` bookkeeping); they never touch the delimiters.
`Option` results model calls on which the C code dereferences an
out-of-range index (or fails to terminate): `none` means undefined
behaviour, `some` carries the resulting rows.
-/

/-- `append_field`: no-op (error 1) when the row does not exist, otherwise
append one freshly created field to it. -/
def append_field (rows : List (List CSV_FIELD)) (row : Nat) :
    List (List CSV_FIELD) :=
  if rows.length < row + 1 then rows
  else listModify rows row (fun r => r ++ [create_field])

/-- `append_row`: append an empty row and then `append_field` into it, so
the new row holds a single empty field. -/
def append_row (rows : List (List CSV_FIELD)) : List (List CSV_FIELD) :=
  rows ++ [[create_field]]

/-- `while (row >= buffer->rows) append_row(buffer);` -/
def growTo (rows : List (List CSV_FIELD)) (row : Nat) :
    List (List CSV_FIELD) :=
  rows ++ List.replicate (row + 1 - rows.length) [create_field]

/-- `remove_last_field`.  The C code's guard is `row > buffer->rows - 1` in
`size_t` arithmetic; when `rows = 0` the guard underflows and the function
reads `buffer->width[row]` from the NULL width array (`none`).  A row of
width 1 is not shrunk: `csv_clear_field(buffer, row, 0)` is called, which
(entry 0 being first in its row) blanks the field in place. -/
def remove_last_field (rows : List (List CSV_FIELD)) (row : Nat) :
    Option (List (List CSV_FIELD)) :=
  if row > sizeSub1 rows.length then some rows
  else
    match rows.get? row with
    | none => none
    | some r =>
      if r.length = 0 then some rows
      else if r.length = 1 then
        some (rows.set row (r.set 0 (set_field create_field [])))
      else some (rows.set row r.dropLast)

/-- `csv_clear_field`: out-of-range is a successful no-op; the last entry
of a row (when not also the first) is removed, any other entry is blanked
in place. -/
def csv_clear_field (rows : List (List CSV_FIELD)) (row entry : Nat) :
    Option (List (List CSV_FIELD)) :=
  if rows.length < row + 1 then some rows
  else
    let r := rows.getD row []
    if r.length < entry + 1 then some rows
    else if entry = r.length - 1 ∧ entry ≠ 0 then remove_last_field rows row
    else some (rows.set row (r.set entry (set_field create_field [])))

/-- `remove_last_row`: clear every field of the last row, then drop it.
With no rows the C code reads `buffer->width[rows - 1]` out of range. -/
def remove_last_row (rows : List (List CSV_FIELD)) :
    Option (List (List CSV_FIELD)) :=
  match rows with
  | [] => none
  | _ :: _ => some rows.dropLast

/-- `csv_clear_row`: the last row is removed outright; otherwise every
field but the first is destroyed and the first is blanked (width becomes
1).  A row of width 0, or a non-last out-of-range row, makes the C code
index out of range. -/
def csv_clear_row (rows : List (List CSV_FIELD)) (row : Nat) :
    Option (List (List CSV_FIELD)) :=
  if row = sizeSub1 rows.length then remove_last_row rows
  else
    match rows.get? row with
    | none => none
    | some r =>
      if r.length = 0 then none
      else some (rows.set row [set_field create_field []])

/-- `csv_copy_row` specialised to `dest == source`, the only way the
library itself invokes it (from `csv_remove_row`).  The destination row is
grown/shrunk to the source row's width and then every field is deep-copied
(`copy_field` = `set_field` with the source text).  When the source row has
width 0 and the destination is wider, the shrinking loop never terminates
(`remove_last_field` of a width-1 row only blanks it): `none`. -/
def csv_copy_row_same (rows : List (List CSV_FIELD)) (dest_row src_row : Nat) :
    Option (List (List CSV_FIELD)) :=
  if src_row > sizeSub1 rows.length then csv_clear_row rows dest_row
  else
    let rows1 := growTo rows dest_row
    match rows1.get? src_row with
    | none => none
    | some srcR =>
      if srcR.length = 0 ∧ (rows1.getD dest_row []).length ≠ 0 then none
      else some (rows1.set dest_row (srcR.map (fun f => set_field f f.text)))

/-- The `for (i = row; i < rows - 1; i++) csv_copy_row(buffer, i, buffer, i + 1);`
loop of `csv_remove_row`, with its iteration count made explicit. -/
def removeRowLoop :
    List (List CSV_FIELD) → Nat → Nat → Option (List (List CSV_FIELD))
  | rows, _, 0 => some rows
  | rows, i, k + 1 =>
    (csv_copy_row_same rows i (i + 1)).bind
      (fun rows1 => removeRowLoop rows1 (i + 1) k)

/-- `csv_remove_row`: shift every later row one position up, then drop the
last row.  The guard `row > buffer->rows - 1` underflows on an empty
buffer, whose shifting loop then reads out of range. -/
def csv_remove_row (rows : List (List CSV_FIELD)) (row : Nat) :
    Option (List (List CSV_FIELD)) :=
  if row > sizeSub1 rows.length then some rows
  else
    match removeRowLoop rows row (sizeSub1 rows.length - row) with
    | none => none
    | some rows1 => remove_last_row rows1

/-- `csv_remove_field`: shift the fields after `entry` one slot left
(each shift is a `copy_field`, i.e. `set_field` with the right-hand
neighbour's text), then `remove_last_field`. -/
def csv_remove_field (rows : List (List CSV_FIELD)) (row entry : Nat) :
    Option (List (List CSV_FIELD)) :=
  if row > sizeSub1 rows.length then some rows
  else
    match rows.get? row with
    | none => none
    | some r =>
      if entry > sizeSub1 r.length then some rows
      else if r.length = 0 then none
      else
        let rShift := r.take entry
          ++ (r.drop (entry + 1)).map (fun f => set_field f f.text)
          ++ r.drop (r.length - 1)
        remove_last_field (rows.set row rShift) row

/-- `csv_set_field`: append rows, then fields, until cell `(row, entry)`
exists, then overwrite its text. -/
def csv_set_field (rows : List (List CSV_FIELD)) (row entry : Nat)
    (t : List Char) : List (List CSV_FIELD) :=
  let rows1 := growTo rows row
  let r := rows1.getD row []
  let r1 := r ++ List.replicate (entry + 1 - r.length) create_field
  rows1.set row (r1.set entry (set_field create_field t))

/-- `csv_insert_field`: a cell past the current bounds is simply set;
otherwise one field is appended, the fields from `entry` on are shifted one
slot right (each shift a `copy_field`), and the target cell is set. -/
def csv_insert_field (rows : List (List CSV_FIELD)) (row entry : Nat)
    (t : List Char) : Option (List (List CSV_FIELD)) :=
  if row > sizeSub1 rows.length then some (csv_set_field rows row entry t)
  else
    match rows.get? row with
    | none => none
    | some r =>
      if entry > sizeSub1 r.length then some (csv_set_field rows row entry t)
      else
        let r2 := r.take (entry + 1)
          ++ (r.drop entry).map (fun f => set_field f f.text)
        some (csv_set_field (rows.set row r2) row entry t)

/-!
## Serializer (`csv_save`)

`strchr` tests are presence tests; a field containing the text delimiter,
the field delimiter or a newline is written quote-wrapped with every inner
text delimiter doubled, any other field verbatim.  The quoted loop writes
`length - 1` characters of the text (`take` models the read through the
stored length).  A field delimiter follows every field but the last of its
row; a newline follows the last field of every row but the last.
-/
def escapeText (td : Char) : List Char → List Char
  | [] => []
  | ch :: rest => (if ch = td then [td, ch] else [ch]) ++ escapeText td rest

/-- Serialization of one field. -/
def saveField (td fd : Char) (f : CSV_FIELD) : List Char :=
  if td ∈ f.text ∨ fd ∈ f.text ∨ '\n' ∈ f.text then
    td :: (escapeText td (f.text.take (f.length - 1)) ++ [td])
  else f.text

/-- Serialization of one row; `lastRow` decides whether a newline follows
its final field. -/
def saveRow (td fd : Char) (lastRow : Bool) : List CSV_FIELD → List Char
  | [] => []
  | [f] => saveField td fd f ++ (if lastRow then [] else ['\n'])
  | f :: f2 :: fs => saveField td fd f ++ fd :: saveRow td fd lastRow (f2 :: fs)

/-- Serialization of the row list. -/
def saveRows (td fd : Char) : List (List CSV_FIELD) → List Char
  | [] => []
  | [r] => saveRow td fd true r
  | r :: r2 :: rs => saveRow td fd false r ++ saveRows td fd (r2 :: rs)

/-- `csv_save`: emit the buffer under its configured delimiters.  (The
model returns the written stream; opening the file is outside the model.) -/
def csv_save (b : CSV_BUFFER) : List Char :=
  saveRows b.text_delim b.field_delim b.field

/-- Decomposition of `saveRows _ _ (fs :: rs) ++ trail` that follows the
loader's traversal: the remaining fields `fs` of the current row, then the
remaining rows `rs`, then the trailing characters `trail`. -/
def saveFields (td fd : Char) (trail : List Char) :
    List CSV_FIELD → List (List CSV_FIELD) → List Char
  | [], _ => []
  | [f], [] => saveField td fd f ++ trail
  | [f], r :: rs => saveField td fd f ++ '\n' :: saveFields td fd trail r rs
  | f :: f2 :: fs, rs => saveField td fd f ++ fd :: saveFields td fd trail (f2 :: fs) rs

/-!
## Accessors
-/

/-- `strncpy(dest, src, n)`: copy at most `n` characters, null-padding when
the source is shorter; bytes of `dest` past `n` are untouched. -/
def strncpy (dest src : List Char) (n : Nat) : List Char :=
  (src.take n ++ List.replicate (n - src.length) nul) ++ dest.drop n

/-- The out-of-range branch of `csv_get_field` runs
`for (i = 0; i < dest_len; i++) dest[0] = '\0';` — every iteration writes
index 0. -/
def zeroFill (dest : List Char) : Nat → List Char
  | 0 => dest
  | k + 1 => (zeroFill dest k).set 0 nul

/-- `csv_get_field`: returns the result code together with the destination
buffer's contents after the call (the caller's buffer being `dest_len + 1`
bytes, its last byte receiving the terminating null). -/
def csv_get_field (dest : List Char) (dest_len : Nat) (src : CSV_BUFFER)
    (row entry : Nat) : Nat × List Char :=
  if dest_len = 0 then (3, dest)
  else if row ≥ src.field.length ∨ entry ≥ (src.field.getD row []).length then
    (2, zeroFill dest dest_len)
  else
    let f := (src.field.getD row []).getD entry create_field
    let dest1 := (strncpy dest f.text dest_len).set dest_len nul
    if f.length > dest_len + 1 then (1, dest1)
    else if f.length = 0 then (2, dest1)
    else (0, dest1)

/-- `csv_get_height`. -/
def csv_get_height (b : CSV_BUFFER) : Nat := b.field.length

/-- `csv_get_width`: the guard `row > buffer->rows - 1` is `size_t`
arithmetic, so on a zero-row buffer it underflows and the function reads
`buffer->width[row]` from the NULL width array (`none`). -/
def csv_get_width (b : CSV_BUFFER) (row : Nat) : Option Nat :=
  if row > sizeSub1 b.field.length then some 0
  else (b.field.get? row).map List.length

/-- `csv_get_field_length`: same underflowing guards as `csv_get_width`;
in range it returns `length - 1`. -/
def csv_get_field_length (b : CSV_BUFFER) (row entry : Nat) : Option Nat :=
  if row > sizeSub1 b.field.length then some 0
  else
    match b.field.get? row with
    | none => none
    | some r =>
      if entry > sizeSub1 r.length then some 0
      else (r.get? entry).map (fun f => f.length - 1)

/-!
## Loader (`csv_load`)

The loop keeps the cursor `(i, j)`; each iteration parses into
`field[i][j-1]` (the most recently created slot) and then creates the next
slot as the terminator dictates.  The allocation oracle supplies one
boolean per `append_row` / `append_field` call ([] = all succeed); a failed
allocation makes the function `return 2` from inside the loop — without
closing the stream.  The third component of the result records whether
`fclose` ran before returning.  Fuel `input.length + 1` bounds the loop:
every iteration that continues has consumed at least one character.
-/
def loadLoop (fd td : Char) :
    Nat → List Bool → List (List CSV_FIELD) → Nat → Nat → List Char →
    List (List CSV_FIELD) × Nat × Bool
  | 0, _, rows, _, _, _ => (rows, 0, true)
  | fuel + 1, oracle, rows, i, j, input =>
    let res := read_next_field fd td input
    let rows1 := updateCell rows i (j - 1) res.1
    if res.2.1 = 2 then (rows1, 0, true)
    else if res.2.1 = 1 then
      if oracle.headD true = false then (rows1, 2, false)
      else loadLoop fd td fuel oracle.tail (rows1 ++ [[create_field]]) (i + 1) 1 res.2.2
    else
      if oracle.headD true = false then (rows1, 2, false)
      else loadLoop fd td fuel oracle.tail (append_field rows1 i) i (j + 1) res.2.2

/-- `csv_load`: the first iteration is special-cased (`next = 1` with no
read): it appends the first row/field slot, sets `i = 0`, `j = 1`, and the
loop then alternates parse / create.  Result: the buffer, the return code
(0 ok, 2 resource error), and whether the stream was closed on the way
out. -/
def csv_load (oracle : List Bool) (b : CSV_BUFFER) (input : List Char) :
    CSV_BUFFER × Nat × Bool :=
  if oracle.headD true = false then (b, 2, false)
  else
    let r := loadLoop b.field_delim b.text_delim (input.length + 1)
      oracle.tail (b.field ++ [[create_field]]) 0 1 input
    ({ b with field := r.1 }, r.2.1, r.2.2)

/-!
## Well-formedness

Every field the library creates satisfies `length = strlen(text) + 1`:
`create_field` establishes it and `set_field` re-establishes it.
-/

/-- A field whose stored length matches its text. -/
def FieldWF (f : CSV_FIELD) : Prop := f.length = f.text.length + 1

/-- Every field of the buffer is well-formed. -/
def BufWF (b : CSV_BUFFER) : Prop :=
  ∀ r ∈ b.field, ∀ f ∈ r, FieldWF f

/-- Every row has width at least 1. -/
def allWidthsPos (rows : List (List CSV_FIELD)) : Prop :=
  ∀ r ∈ rows, 1 ≤ r.length

instance (f : CSV_FIELD) : Decidable (FieldWF f) := by
  unfold FieldWF; infer_instance

instance (b : CSV_BUFFER) : Decidable (BufWF b) := by
  unfold BufWF; infer_instance

instance (rows : List (List CSV_FIELD)) : Decidable (allWidthsPos rows) := by
  unfold allWidthsPos; infer_instance

/-!
## Positional list lemmas
-/

theorem get?_append_len {α : Type} (xs : List α) (y : α) (ys : List α) :
    (xs ++ y :: ys).get? xs.length = some y := by
  induction xs with
  | nil => rfl
  | cons x xs ih => simpa using ih

theorem set_append_len {α : Type} (xs : List α) (y a : α) (ys : List α) :
    (xs ++ y :: ys).set xs.length a = xs ++ a :: ys := by
  induction xs with
  | nil => rfl
  | cons x xs ih => simpa using ih

theorem listModify_append_len {α : Type} (xs : List α) (y : α) (ys : List α)
    (f : α → α) : listModify (xs ++ y :: ys) xs.length f = xs ++ f y :: ys := by
  unfold listModify
  rw [get?_append_len]
  exact set_append_len xs y (f y) ys

theorem take_set_of_le {α : Type} (l : List α) (i n : Nat) (a : α)
    (h : n ≤ i) : (l.set i a).take n = l.take n := by
  induction l generalizing i n with
  | nil => simp
  | cons x xs ih =>
    cases i with
    | zero => interval_cases n <;> simp
    | succ i =>
      cases n with
      | zero => simp
      | succ n => simpa using ih i n (Nat.succ_le_succ_iff.mp h)

/-!
## Tokenizer lemmas
-/

theorem accum_plain (fd td : Char) (pre : List Char)
    (hpre : ∀ ch ∈ pre, ch ≠ fd ∧ ch ≠ td ∧ ch ≠ '\n') :
    ∀ (l s : List Char) (c : Nat), s.length = c →
    accumField fd td (pre ++ l) s c false false
      = accumField fd td l (s ++ pre) (c + pre.length) false false := by
  induction pre with
  | nil => intro l s c hsc; simp
  | cons p pre ih =>
    intro l s c hsc
    obtain ⟨h1, h2, h3⟩ := hpre p (List.mem_cons_self p pre)
    have hrest : ∀ ch ∈ pre, ch ≠ fd ∧ ch ≠ td ∧ ch ≠ '\n' :=
      fun ch hch => hpre ch (List.mem_cons_of_mem p hch)
    have htake : s.take c = s := by rw [← hsc]; exact List.take_length s
    have step : accumField fd td ((p :: pre) ++ l) s c false false
        = accumField fd td (pre ++ l) (s ++ [p]) (c + 1) false false := by
      simp [accumField, h1, h2, h3, htake]
    rw [step, ih hrest l (s ++ [p]) (c + 1) (by simp [hsc])]
    simp [List.append_assoc]
    ring_nf

theorem accum_escaped (fd td : Char) (t : List Char) :
    ∀ (l s : List Char) (c : Nat), s.length = c →
    accumField fd td (escapeText td t ++ l) s c true false
      = accumField fd td l (s ++ t) (c + t.length) true false := by
  induction t with
  | nil => intro l s c hsc; simp [escapeText]
  | cons ch t ih =>
    intro l s c hsc
    have htake : s.take c = s := by rw [← hsc]; exact List.take_length s
    have step : accumField fd td ((escapeText td (ch :: t)) ++ l) s c true false
        = accumField fd td (escapeText td t ++ l) (s ++ [ch]) (c + 1) true false := by
      by_cases hch : ch = td
      · simp only [escapeText, if_pos hch, List.cons_append, List.append_assoc]
        simp [accumField, hch, htake]
      · simp only [escapeText, if_neg hch, List.cons_append, List.nil_append]
        simp [accumField, hch, htake]
    rw [step, ih l (s ++ [ch]) (c + 1) (by simp [hsc])]
    simp [List.append_assoc]
    ring_nf

theorem accum_quoted_ne_nil (fd td : Char) :
    ∀ (l s : List Char) (c : Nat) (esc : Bool), s ≠ [] →
    (accumField fd td l s c true esc).1 ≠ [] := by
  intro l
  induction l with
  | nil => intro s c esc hs; simpa [accumField] using hs
  | cons ch rest ih =>
    intro s c esc hs
    by_cases hch : ch = td
    · cases esc with
      | true => simpa [accumField, hch] using ih (s.take c ++ [ch]) (c + 1) false (by simp)
      | false => simpa [accumField, hch] using ih s c true hs
    · cases esc with
      | true => simpa [accumField, hch] using hs
      | false =>
        simpa [accumField, hch] using
          ih (s.take c ++ [ch]) (c + 1) false (by simp)

theorem accum_quoted_reset (fd td : Char) :
    ∀ (l S : List Char) (esc : Bool),
    accumField fd td l S 0 true esc
      = (if (accumField fd td l [] 0 true esc).1 = []
         then S else (accumField fd td l [] 0 true esc).1,
         (accumField fd td l [] 0 true esc).2) := by
  intro l
  induction l with
  | nil => intro S esc; simp [accumField]
  | cons ch rest ih =>
    intro S esc
    by_cases hch : ch = td
    · cases esc with
      | true =>
        have hne := accum_quoted_ne_nil fd td rest [td] 1 false (by simp)
        simp [accumField, hch, hne]
      | false =>
        have h1 := ih S true
        simp [accumField, hch, h1]
    · cases esc with
      | true => simp [accumField, hch]
      | false =>
        have hne := accum_quoted_ne_nil fd td rest [ch] 1 false (by simp)
        simp [accumField, hch, hne]

theorem accum_saveField (fd td : Char) (hfdtd : fd ≠ td) (htdnl : td ≠ '\n')
    (f : CSV_FIELD) (hwf : FieldWF f) (sfx : List Char)
    (hsfx : sfx = [] ∨ (∃ r, sfx = fd :: r) ∨ (∃ r, sfx = '\n' :: r)) :
    accumField fd td (saveField td fd f ++ sfx) [] 0 false false
      = (f.text, sfx.head?, sfx.tail) := by
  by_cases h : td ∈ f.text ∨ fd ∈ f.text ∨ '\n' ∈ f.text
  · -- quoted serialization
    have htext : f.text.take (f.length - 1) = f.text := by
      rw [hwf]; simp
    have hsave : saveField td fd f
        = td :: (escapeText td f.text ++ [td]) := by
      rw [saveField, if_pos h, htext]
    rw [hsave]
    have step1 : accumField fd td ((td :: (escapeText td f.text ++ [td])) ++ sfx)
        [] 0 false false
        = accumField fd td (escapeText td f.text ++ (td :: sfx)) [] 0 true false := by
      simp [accumField]
    rw [step1, accum_escaped fd td f.text (td :: sfx) [] 0 rfl]
    have step2 : accumField fd td (td :: sfx) f.text f.text.length true false
        = accumField fd td sfx f.text f.text.length true true := by
      simp [accumField]
    rw [List.nil_append, Nat.zero_add, step2]
    rcases hsfx with rfl | ⟨r, rfl⟩ | ⟨r, rfl⟩
    · simp [accumField]
    · have : ¬fd = td := hfdtd
      simp [accumField, this]
    · have : ¬ '\n' = td := fun hx => htdnl hx.symm
      simp [accumField, this]
  · -- plain serialization
    have hsave : saveField td fd f = f.text := by rw [saveField, if_neg h]
    push_neg at h
    obtain ⟨htd, hfd, hnl⟩ := h
    have hpre : ∀ ch ∈ f.text, ch ≠ fd ∧ ch ≠ td ∧ ch ≠ '\n' := by
      intro ch hch
      refine ⟨?_, ?_, ?_⟩ <;> rintro rfl <;> [exact hfd hch; exact htd hch; exact hnl hch]
    rw [hsave, accum_plain fd td f.text hpre sfx [] 0 rfl]
    rw [List.nil_append, Nat.zero_add]
    rcases hsfx with rfl | ⟨r, rfl⟩ | ⟨r, rfl⟩
    · simp [accumField]
    · have : ¬fd = td := hfdtd
      simp [accumField, this]
    · have h1 : ¬ '\n' = td := fun hx => htdnl hx.symm
      by_cases h2 : '\n' = fd
      · simp [accumField, h1, h2]
      · simp [accumField, h1, h2]

theorem rnf_saveField (fd td : Char) (hfdtd : fd ≠ td) (htdnl : td ≠ '\n')
    (f : CSV_FIELD) (hwf : FieldWF f) (sfx : List Char)
    (hsfx : sfx = [] ∨ (∃ r, sfx = fd :: r) ∨ (∃ r, sfx = '\n' :: r)) :
    read_next_field fd td (saveField td fd f ++ sfx)
      = (f.text, termScan fd sfx.head? sfx.tail) := by
  unfold read_next_field
  rw [accum_saveField fd td hfdtd htdnl f hwf sfx hsfx]

/-!
## Serializer decomposition
-/

theorem saveFields_one (td fd : Char) (trail : List Char) (f : CSV_FIELD) :
    saveFields td fd trail [f] [] = saveField td fd f ++ trail := by
  simp [saveFields]

theorem saveFields_one_cons (td fd : Char) (trail : List Char) (f : CSV_FIELD)
    (r : List CSV_FIELD) (rs : List (List CSV_FIELD)) :
    saveFields td fd trail [f] (r :: rs)
      = saveField td fd f ++ '\n' :: saveFields td fd trail r rs := by
  simp [saveFields]

theorem saveFields_cons_cons (td fd : Char) (trail : List Char)
    (f f2 : CSV_FIELD) (fs : List CSV_FIELD) (rs : List (List CSV_FIELD)) :
    saveFields td fd trail (f :: f2 :: fs) rs
      = saveField td fd f ++ fd :: saveFields td fd trail (f2 :: fs) rs := by
  simp [saveFields]

theorem saveFields_of_saveRow_last (td fd : Char) (trail : List Char) :
    ∀ fs : List CSV_FIELD, fs ≠ [] →
    saveFields td fd trail fs [] = saveRow td fd true fs ++ trail := by
  intro fs
  induction fs with
  | nil => intro h; exact absurd rfl h
  | cons f fs ih =>
    intro _
    cases fs with
    | nil => simp [saveFields, saveRow]
    | cons f2 fs' =>
      rw [saveFields_cons_cons, ih (by simp)]
      simp [saveRow]

theorem saveFields_of_saveRow (td fd : Char) (trail : List Char)
    (r : List CSV_FIELD) (rs : List (List CSV_FIELD)) :
    ∀ fs : List CSV_FIELD, fs ≠ [] →
    saveFields td fd trail fs (r :: rs)
      = saveRow td fd false fs ++ saveFields td fd trail r rs := by
  intro fs
  induction fs with
  | nil => intro h; exact absurd rfl h
  | cons f fs ih =>
    intro _
    cases fs with
    | nil => simp [saveFields, saveRow]
    | cons f2 fs' =>
      rw [saveFields_cons_cons, ih (by simp)]
      simp [saveRow]

theorem saveRows_decomp (td fd : Char) (trail : List Char) :
    ∀ (rs : List (List CSV_FIELD)) (fs : List CSV_FIELD), fs ≠ [] →
    (∀ r ∈ rs, r ≠ []) →
    saveRows td fd (fs :: rs) ++ trail = saveFields td fd trail fs rs := by
  intro rs
  induction rs with
  | nil =>
    intro fs hfs _
    rw [saveFields_of_saveRow_last td fd trail fs hfs]
    simp [saveRows]
  | cons r rs ih =>
    intro fs hfs hrs
    rw [saveFields_of_saveRow td fd trail r rs fs hfs]
    have hr : r ≠ [] := hrs r (List.mem_cons_self r rs)
    have : saveRows td fd (fs :: r :: rs) = saveRow td fd false fs ++ saveRows td fd (r :: rs) := by
      simp [saveRows]
    rw [this, List.append_assoc, ih r hr (fun x hx => hrs x (List.mem_cons_of_mem r hx))]

theorem saveField_eq_nil_iff (td fd : Char) (f : CSV_FIELD) :
    saveField td fd f = [] ↔ f.text = [] := by
  unfold saveField
  by_cases h : td ∈ f.text ∨ fd ∈ f.text ∨ '\n' ∈ f.text
  · rw [if_pos h]
    constructor
    · intro hx; exact absurd hx (by simp)
    · intro hx
      rcases h with h | h | h <;> rw [hx] at h <;> exact absurd h (List.not_mem_nil _)
  · rw [if_neg h]

theorem saveFields_eq_nil (td fd : Char) (trail : List Char)
    (fs : List CSV_FIELD) (rs : List (List CSV_FIELD)) (hfs : fs ≠ [])
    (h : saveFields td fd trail fs rs = []) :
    ∃ f, fs = [f] ∧ f.text = [] ∧ rs = [] ∧ trail = [] := by
  cases fs with
  | nil => exact absurd rfl hfs
  | cons f fs' =>
    cases fs' with
    | nil =>
      cases rs with
      | nil =>
        rw [saveFields_one] at h
        rcases List.append_eq_nil.mp h with ⟨h1, h2⟩
        exact ⟨f, rfl, (saveField_eq_nil_iff td fd f).mp h1, rfl, h2⟩
      | cons r rs' =>
        rw [saveFields_one_cons] at h
        rcases List.append_eq_nil.mp h with ⟨_, h2⟩
        exact absurd h2 (by simp)
    | cons f2 fs'' =>
      rw [saveFields_cons_cons] at h
      rcases List.append_eq_nil.mp h with ⟨_, h2⟩
      exact absurd h2 (by simp)

/-!
## Loader-step helpers
-/

theorem set_field_of_wf (f g : CSV_FIELD) (hwf : FieldWF f) :
    set_field g f.text = f := by
  unfold FieldWF at hwf
  cases f with
  | mk text length => exact congrArg (CSV_FIELD.mk text) hwf.symm

theorem updateCell_last (done : List (List CSV_FIELD)) (pref : List CSV_FIELD)
    (t : List Char) :
    updateCell (done ++ [pref ++ [create_field]]) done.length pref.length t
      = done ++ [pref ++ [set_field create_field t]] := by
  unfold updateCell
  have h1 : done ++ [pref ++ [create_field]]
      = done ++ (pref ++ [create_field]) :: [] := rfl
  rw [h1, listModify_append_len]
  have h2 : pref ++ [create_field] = pref ++ create_field :: [] := rfl
  rw [h2, listModify_append_len]

theorem append_field_last (done : List (List CSV_FIELD)) (r : List CSV_FIELD) :
    append_field (done ++ [r]) done.length = done ++ [r ++ [create_field]] := by
  unfold append_field
  rw [if_neg (by simp)]
  have h1 : done ++ [r] = done ++ r :: [] := rfl
  rw [h1, listModify_append_len]

theorem loadLoop_step2 (fd td : Char) (fuel : Nat)
    (done : List (List CSV_FIELD)) (pref : List CSV_FIELD)
    (input t rest : List Char)
    (hrnf : read_next_field fd td input = (t, 2, rest)) :
    loadLoop fd td (fuel + 1) [] (done ++ [pref ++ [create_field]]) done.length
      (pref.length + 1) input
      = (done ++ [pref ++ [set_field create_field t]], 0, true) := by
  simp only [loadLoop, hrnf, Nat.add_sub_cancel]
  rw [if_pos trivial, updateCell_last]

theorem loadLoop_step0 (fd td : Char) (fuel : Nat)
    (done : List (List CSV_FIELD)) (pref : List CSV_FIELD)
    (input t rest : List Char)
    (hrnf : read_next_field fd td input = (t, 0, rest)) :
    loadLoop fd td (fuel + 1) [] (done ++ [pref ++ [create_field]]) done.length
      (pref.length + 1) input
      = loadLoop fd td fuel []
          (done ++ [(pref ++ [set_field create_field t]) ++ [create_field]])
          done.length ((pref ++ [set_field create_field t]).length + 1) rest := by
  simp only [loadLoop, hrnf, Nat.add_sub_cancel, List.headD_nil, List.tail_nil]
  rw [if_neg (by decide), if_neg (by decide), if_neg (by decide)]
  rw [updateCell_last, append_field_last]
  simp

theorem loadLoop_step1 (fd td : Char) (fuel : Nat)
    (done : List (List CSV_FIELD)) (pref : List CSV_FIELD)
    (input t rest : List Char)
    (hrnf : read_next_field fd td input = (t, 1, rest)) :
    loadLoop fd td (fuel + 1) [] (done ++ [pref ++ [create_field]]) done.length
      (pref.length + 1) input
      = loadLoop fd td fuel []
          ((done ++ [pref ++ [set_field create_field t]]) ++ [[] ++ [create_field]])
          (done ++ [pref ++ [set_field create_field t]]).length
          (List.length ([] : List CSV_FIELD) + 1) rest := by
  simp only [loadLoop, hrnf, Nat.add_sub_cancel, List.headD_nil, List.tail_nil]
  rw [if_pos trivial, if_neg (by decide)]
  rw [updateCell_last]
  simp

/-!
## The master load/save lemma

`loadLoop` run on the serialized remainder of a buffer reconstructs the
buffer.  The `trail` parameter ([] or a single trailing newline) covers
both a file saved as-is and one with a trailing newline appended.
-/
theorem loadLoop_saveFields (fd td : Char) (hfdtd : fd ≠ td)
    (htdnl : td ≠ '\n') (hfdnl : fd ≠ '\n') (trail : List Char)
    (htrail : trail = [] ∨ trail = ['\n']) :
    ∀ (rs : List (List CSV_FIELD)) (fs : List CSV_FIELD),
    fs ≠ [] → (∀ r ∈ rs, r ≠ []) →
    (∀ f ∈ fs, FieldWF f) → (∀ r ∈ rs, ∀ f ∈ r, FieldWF f) →
    (trail = [] → ∀ g, rs.getLast? = some [g] → g.text ≠ []) →
    ∀ (done : List (List CSV_FIELD)) (pref : List CSV_FIELD) (fuel : Nat),
    (saveFields td fd trail fs rs).length < fuel →
    loadLoop fd td fuel [] (done ++ [pref ++ [create_field]]) done.length
        (pref.length + 1) (saveFields td fd trail fs rs)
      = (done ++ (pref ++ fs) :: rs, 0, true) := by
  intro rs
  induction rs with
  | nil =>
    intro fs
    induction fs with
    | nil => intro h; exact absurd rfl h
    | cons f fs ihf =>
      intro _ hrs hwfs hwrs hsc done pref fuel hfuel
      have hwf : FieldWF f := hwfs f (by simp)
      cases fs with
      | nil =>
        rw [saveFields_one] at hfuel ⊢
        cases fuel with
        | zero => omega
        | succ fuel =>
          have hrnf : read_next_field fd td (saveField td fd f ++ trail)
              = (f.text, 2, []) := by
            rcases htrail with rfl | rfl
            · rw [rnf_saveField fd td hfdtd htdnl f hwf [] (Or.inl rfl)]
              rfl
            · rw [rnf_saveField fd td hfdtd htdnl f hwf ['\n']
                  (Or.inr (Or.inr ⟨[], rfl⟩))]
              have h1 : ¬ '\n' = fd := fun h => hfdnl h.symm
              simp [termScan.eq_def, h1]
          rw [loadLoop_step2 fd td fuel done pref _ f.text [] hrnf,
            set_field_of_wf f _ hwf]
      | cons f2 fs' =>
        rw [saveFields_cons_cons] at hfuel ⊢
        cases fuel with
        | zero => omega
        | succ fuel =>
          have hrnf : read_next_field fd td
              (saveField td fd f ++ fd :: saveFields td fd trail (f2 :: fs') [])
              = (f.text, 0, saveFields td fd trail (f2 :: fs') []) := by
            rw [rnf_saveField fd td hfdtd htdnl f hwf _ (Or.inr (Or.inl ⟨_, rfl⟩))]
            simp [termScan.eq_def]
          rw [loadLoop_step0 fd td fuel done pref _ f.text _ hrnf,
            set_field_of_wf f _ hwf]
          have hfuel2 : (saveFields td fd trail (f2 :: fs') []).length < fuel := by
            simp [List.length_append] at hfuel
            omega
          rw [ihf (by simp) hrs (fun g hg => hwfs g (by simp [hg])) hwrs hsc
            done (pref ++ [f]) fuel hfuel2]
          simp
  | cons r rs' ihr =>
    intro fs
    induction fs with
    | nil => intro h; exact absurd rfl h
    | cons f fs ihf =>
      intro _ hrs hwfs hwrs hsc done pref fuel hfuel
      have hwf : FieldWF f := hwfs f (by simp)
      cases fs with
      | nil =>
        rw [saveFields_one_cons] at hfuel ⊢
        cases fuel with
        | zero => omega
        | succ fuel =>
          have hX : saveFields td fd trail r rs' ≠ [] := by
            intro h0
            obtain ⟨g, hg1, hg2, hg3, hg4⟩ :=
              saveFields_eq_nil td fd trail r rs' (hrs r (by simp)) h0
            subst hg3
            exact (hsc hg4 g (by simp [hg1])) hg2
          have hrnf : read_next_field fd td
              (saveField td fd f ++ '\n' :: saveFields td fd trail r rs')
              = (f.text, 1, saveFields td fd trail r rs') := by
            rw [rnf_saveField fd td hfdtd htdnl f hwf _
              (Or.inr (Or.inr ⟨_, rfl⟩))]
            have h1 : ¬ '\n' = fd := fun h => hfdnl h.symm
            cases hX2 : saveFields td fd trail r rs' with
            | nil => exact absurd hX2 hX
            | cons x xs => simp [termScan.eq_def, h1]
          rw [loadLoop_step1 fd td fuel done pref _ f.text _ hrnf,
            set_field_of_wf f _ hwf]
          have hsc' : trail = [] → ∀ g, rs'.getLast? = some [g] → g.text ≠ [] := by
            intro ht g hg
            cases rs' with
            | nil => simp at hg
            | cons x xs =>
              exact hsc ht g (by rw [List.getLast?_cons_cons]; exact hg)
          have hfuel2 : (saveFields td fd trail r rs').length < fuel := by
            simp [List.length_append] at hfuel
            omega
          rw [ihr r (hrs r (by simp)) (fun x hx => hrs x (by simp [hx]))
            (hwrs r (by simp)) (fun x hx g hg => hwrs x (by simp [hx]) g hg)
            hsc' (done ++ [pref ++ [f]]) [] fuel hfuel2]
          simp
      | cons f2 fs' =>
        rw [saveFields_cons_cons] at hfuel ⊢
        cases fuel with
        | zero => omega
        | succ fuel =>
          have hrnf : read_next_field fd td
              (saveField td fd f ++ fd :: saveFields td fd trail (f2 :: fs') (r :: rs'))
              = (f.text, 0, saveFields td fd trail (f2 :: fs') (r :: rs')) := by
            rw [rnf_saveField fd td hfdtd htdnl f hwf _ (Or.inr (Or.inl ⟨_, rfl⟩))]
            simp [termScan.eq_def]
          rw [loadLoop_step0 fd td fuel done pref _ f.text _ hrnf,
            set_field_of_wf f _ hwf]
          have hfuel2 : (saveFields td fd trail (f2 :: fs') (r :: rs')).length < fuel := by
            simp [List.length_append] at hfuel
            omega
          rw [ihf (by simp) hrs (fun g hg => hwfs g (by simp [hg])) hwrs hsc
            done (pref ++ [f]) fuel hfuel2]
          simp

theorem csv_load_of_csv_save (B : CSV_BUFFER) (hfd : B.field_delim = ',')
    (htd : B.text_delim = '"') (r : List CSV_FIELD)
    (rs : List (List CSV_FIELD)) (hB : B.field = r :: rs)
    (hne : ∀ row ∈ B.field, row ≠ []) (hwf : BufWF B)
    (trail : List Char) (htrail : trail = [] ∨ trail = ['\n'])
    (hlast : trail = [] → ∀ g, rs.getLast? = some [g] → g.text ≠ []) :
    (csv_load [] csv_create_buffer (csv_save B ++ trail)).1 = B := by
  have hr : r ≠ [] := hne r (by rw [hB]; exact List.mem_cons_self r rs)
  have hrs : ∀ x ∈ rs, x ≠ [] :=
    fun x hx => hne x (by rw [hB]; exact List.mem_cons_of_mem r hx)
  have hwr : ∀ f ∈ r, FieldWF f :=
    hwf r (by rw [hB]; exact List.mem_cons_self r rs)
  have hwrs : ∀ x ∈ rs, ∀ f ∈ x, FieldWF f :=
    fun x hx => hwf x (by rw [hB]; exact List.mem_cons_of_mem r hx)
  have hsave : csv_save B ++ trail = saveFields '"' ',' trail r rs := by
    rw [csv_save, hfd, htd, hB]
    exact saveRows_decomp '"' ',' trail rs r hr hrs
  have hmaster := loadLoop_saveFields ',' '"' (by decide) (by decide) (by decide)
    trail htrail rs r hr hrs hwr hwrs hlast [] []
    ((saveFields '"' ',' trail r rs).length + 1) (by omega)
  simp only [List.nil_append, List.length_nil, Nat.zero_add] at hmaster
  rw [csv_load, if_neg (by decide), hsave]
  have hbuf : csv_create_buffer.field ++ [[create_field]] = [[create_field]] := rfl
  have hfd2 : csv_create_buffer.field_delim = ',' := rfl
  have htd2 : csv_create_buffer.text_delim = '"' := rfl
  rw [hbuf, hfd2, htd2, List.tail_nil, hmaster]
  cases B with
  | mk bf bfd btd =>
    simp only at hB hfd htd
    subst hB hfd htd
    rfl

/-!
## Claim C1 (round trip)
-/

/-- C1, counterexample: the round trip does not hold for the empty buffer.
Saving the zero-row buffer writes the empty stream, and loading the empty
stream into a fresh buffer produces one row holding one empty field, so
`load(save(B)) ≠ B` for `B` the freshly created (zero-row) buffer. -/
theorem c1_counterexample :
    (csv_load [] csv_create_buffer (csv_save csv_create_buffer)).1
      ≠ csv_create_buffer := by decide

/-- C1, amended: for every buffer `B` with the default delimiters, at
least one row, every row of width at least 1, well-formed stored field
lengths, and whose final row is not a single empty-text field when `B` has
two or more rows, loading the output of `csv_save(B)` into a freshly
created buffer produces a buffer equal to `B` cell-for-cell (same row
count, same per-row widths, same field texts). -/
theorem c1_round_trip (B : CSV_BUFFER) (hfd : B.field_delim = ',')
    (htd : B.text_delim = '"') (r : List CSV_FIELD)
    (rs : List (List CSV_FIELD)) (hB : B.field = r :: rs)
    (hne : ∀ row ∈ B.field, row ≠ []) (hwf : BufWF B)
    (hlast : ∀ g, rs.getLast? = some [g] → g.text ≠ []) :
    (csv_load [] csv_create_buffer (csv_save B)).1 = B := by
  have h := csv_load_of_csv_save B hfd htd r rs hB hne hwf []
    (Or.inl rfl) (fun _ => hlast)
  simpa using h

/-- C1, witness: a concrete buffer with an embedded field delimiter, an
embedded text delimiter, an embedded newline and an empty field
round-trips. -/
theorem c1_round_trip_witness :
    (csv_load [] csv_create_buffer (csv_save
      { field := [[⟨['a'], 2⟩, ⟨[',', 'b'], 3⟩, ⟨[], 1⟩],
                  [⟨['x', '"', 'y'], 4⟩, ⟨['l', '\n', 'm'], 4⟩]],
        field_delim := ',', text_delim := '"' })).1
      = { field := [[⟨['a'], 2⟩, ⟨[',', 'b'], 3⟩, ⟨[], 1⟩],
                    [⟨['x', '"', 'y'], 4⟩, ⟨['l', '\n', 'm'], 4⟩]],
          field_delim := ',', text_delim := '"' } :=
  c1_round_trip _ rfl rfl
    [⟨['a'], 2⟩, ⟨[',', 'b'], 3⟩, ⟨[], 1⟩]
    [[⟨['x', '"', 'y'], 4⟩, ⟨['l', '\n', 'm'], 4⟩]] rfl
    (by decide) (by decide)
    (by intro g hg; simp at hg)

/-!
## Claim C4 (trailing newline absorbed)
-/

/-- C4: in the terminator scan a newline immediately followed by
end-of-stream is classified as end-of-stream (code 2), not new-row
(code 1) — while a newline followed by anything else is classified 1 —
and consequently a saved buffer with a trailing newline appended loads
back without a spurious empty trailing row (it reproduces the buffer
exactly). -/
theorem c4_trailing_newline :
    (∀ fd : Char, fd ≠ '\n' →
      termScan fd (some '\n') [] = (2, []) ∧
      ∀ (x : Char) (xs : List Char),
        termScan fd (some '\n') (x :: xs) = (1, x :: xs)) ∧
    ∀ (B : CSV_BUFFER), B.field_delim = ',' → B.text_delim = '"' →
      ∀ (r : List CSV_FIELD) (rs : List (List CSV_FIELD)), B.field = r :: rs →
      (∀ row ∈ B.field, row ≠ []) → BufWF B →
      (csv_load [] csv_create_buffer (csv_save B ++ ['\n'])).1 = B := by
  constructor
  · intro fd hfd
    have h1 : ¬ '\n' = fd := fun h => hfd h.symm
    constructor
    · rw [termScan.eq_def]
      simp [h1]
    · intro x xs
      rw [termScan.eq_def]
      simp [h1]
  · intro B hfd htd r rs hB hne hwf
    exact csv_load_of_csv_save B hfd htd r rs hB hne hwf ['\n']
      (Or.inr rfl) (fun h => absurd h (by simp))

/-- C4, witness: the classification at the default field delimiter, and a
concrete two-row buffer whose save output gets a newline appended and
still loads back exactly (its final row even being a single empty field,
the case the bare round trip drops). -/
theorem c4_trailing_newline_witness :
    termScan ',' (some '\n') [] = (2, []) ∧
    (csv_load [] csv_create_buffer (csv_save
      { field := [[⟨['a'], 2⟩], [⟨[], 1⟩]],
        field_delim := ',', text_delim := '"' } ++ ['\n'])).1
      = { field := [[⟨['a'], 2⟩], [⟨[], 1⟩]],
          field_delim := ',', text_delim := '"' } :=
  ⟨(c4_trailing_newline.1 ',' (by decide)).1,
   c4_trailing_newline.2 _ rfl rfl [⟨['a'], 2⟩] [[⟨[], 1⟩]] rfl
     (by decide) (by decide)⟩

/-!
## Claim C3 (text delimiter met while unquoted)
-/

/-- C3, counterexample: on the stream a, b, text-delimiter, end-of-stream
the tokenizer meets the text delimiter in the Unquoted state after
accumulating "ab", yet the produced field text is "ab", not the empty
text: nothing is accumulated after entering the quoted state, so the
pre-quote accumulation is not discarded and the produced text does not
consist of characters accumulated after entering the quoted state. -/
theorem c3_counterexample :
    (read_next_field ',' '"' ['a', 'b', '"']).1 = ['a', 'b'] ∧
    (read_next_field ',' '"' ['a', 'b', '"']).1 ≠ [] := by decide

/-- C3, amended: a text delimiter met in the Unquoted state resets the
accumulator's write position to the start of the buffer without erasing
it, so characters accumulated in the quoted state overwrite the earlier
ones one by one: the field produced equals the field produced by running
the tokenizer from the text delimiter on (discarding the pre-quote
accumulation) whenever at least one character is accumulated in the
quoted state, but when none is, the previously accumulated characters
survive as the field text.  The terminator code and stream position never
depend on the pre-quote accumulation. -/
theorem c3_unquoted_quote_resets (fd td : Char) (pre rest : List Char)
    (hpre : ∀ ch ∈ pre, ch ≠ fd ∧ ch ≠ td ∧ ch ≠ '\n') :
    read_next_field fd td (pre ++ td :: rest)
      = (if (read_next_field fd td (td :: rest)).1 = [] then pre
         else (read_next_field fd td (td :: rest)).1,
         (read_next_field fd td (td :: rest)).2) := by
  have hplain := accum_plain fd td pre hpre (td :: rest) [] 0 rfl
  rw [List.nil_append] at hplain
  have step1 : accumField fd td (td :: rest) pre (0 + pre.length) false false
      = accumField fd td rest pre 0 true false := by
    simp [accumField]
  have step2 : accumField fd td (td :: rest) [] 0 false false
      = accumField fd td rest [] 0 true false := by
    simp [accumField]
  have hreset := accum_quoted_reset fd td rest pre false
  simp only [read_next_field, hplain, step1, step2, hreset]

/-- C3, witness: with "ab" accumulated before the quote, a quote followed
by end-of-stream keeps "ab", while a quote followed by a quoted c
overwrites it with "c". -/
theorem c3_unquoted_quote_resets_witness :
    read_next_field ',' '"' (['a', 'b'] ++ '"' :: []) = (['a', 'b'], 2, []) ∧
    read_next_field ',' '"' (['a', 'b'] ++ '"' :: ['c']) = (['c'], 2, []) := by
  constructor
  · rw [c3_unquoted_quote_resets ',' '"' ['a', 'b'] [] (by decide)]
    decide
  · rw [c3_unquoted_quote_resets ',' '"' ['a', 'b'] ['c'] (by decide)]
    decide

/-!
## Accessor lemmas and claims C2, C5, C10, C8
-/

theorem getD_of_get? {α : Type} (l : List α) (n : Nat) (a d : α)
    (h : l.get? n = some a) : l.getD n d = a := by
  simp [List.getD_eq_getElem?_getD, ← List.get?_eq_getElem?, h]

/-- C2: the claim fails on the code.  On an out-of-range cell
`csv_get_field` does return the empty-or-absent code 2, but its fill loop
runs `dest[0] = '\0'` on every iteration — index 0, not i — so with
capacity 2 and prior contents a, b the destination ends as (NUL, b), not
(NUL, NUL): the destination is not filled with null bytes up to the
capacity, contradicting the function's own documentation. -/
theorem c2_zero_fill_bug :
    (csv_get_field ['a', 'b'] 2 csv_create_buffer 0 0).1 = 2 ∧
    (csv_get_field ['a', 'b'] 2 csv_create_buffer 0 0).2 = [nul, 'b'] ∧
    (csv_get_field ['a', 'b'] 2 csv_create_buffer 0 0).2 ≠ [nul, nul] := by
  decide

/-- C5: truncation exactness: reading an in-range cell of text length m
into a destination of capacity n with 1 ≤ n < m returns the truncated
code 1 and leaves exactly the first n bytes of the field's text in the
first n bytes of the destination. -/
theorem c5_truncation (b : CSV_BUFFER) (row entry n : Nat)
    (dest : List Char) (r : List CSV_FIELD) (f : CSV_FIELD)
    (hrow : b.field.get? row = some r) (hentry : r.get? entry = some f)
    (hwf : FieldWF f) (hn : 1 ≤ n) (hm : n < f.text.length) :
    (csv_get_field dest n b row entry).1 = 1 ∧
    (csv_get_field dest n b row entry).2.take n = f.text.take n := by
  have hrl : row < b.field.length := (List.get?_eq_some.mp hrow).1
  have hel : entry < r.length := (List.get?_eq_some.mp hentry).1
  have hgr : b.field.getD row [] = r := getD_of_get? _ _ _ _ hrow
  have hgf : (b.field.getD row []).getD entry create_field = f := by
    rw [hgr]; exact getD_of_get? _ _ _ _ hentry
  have hcond : ¬(row ≥ b.field.length ∨ entry ≥ (b.field.getD row []).length) := by
    rw [hgr]; omega
  have hlen : f.length > n + 1 := by rw [hwf]; omega
  constructor
  · rw [csv_get_field, if_neg (by omega), if_neg hcond, hgf, if_pos hlen]
  · rw [csv_get_field, if_neg (by omega), if_neg hcond, hgf, if_pos hlen]
    rw [take_set_of_le _ n n nul (le_refl n)]
    unfold strncpy
    have h0 : n - f.text.length = 0 := by omega
    rw [h0, List.replicate_zero, List.append_nil]
    exact List.take_left' (by simp [Nat.min_eq_left (Nat.le_of_lt hm)])

/-- C5, witness: capacity 2 on the text "hello" yields code 1 and the
bytes h, e. -/
theorem c5_truncation_witness :
    (csv_get_field ['x', 'x', 'x'] 2
      { field := [[⟨['h', 'e', 'l', 'l', 'o'], 6⟩]],
        field_delim := ',', text_delim := '"' } 0 0).1 = 1 ∧
    (csv_get_field ['x', 'x', 'x'] 2
      { field := [[⟨['h', 'e', 'l', 'l', 'o'], 6⟩]],
        field_delim := ',', text_delim := '"' } 0 0).2.take 2
      = ['h', 'e', 'l', 'l', 'o'].take 2 :=
  c5_truncation _ 0 0 2 ['x', 'x', 'x'] _ ⟨['h', 'e', 'l', 'l', 'o'], 6⟩
    rfl rfl (by decide) (by decide) (by decide)

/-- C10: on a buffer whose fields all carry their stored
length = text length + 1 (as every field the library creates does), an
in-range cell with empty text is read back with the success code 0 — the
code-2 branch guarded by length == 0 is unreachable — and code 2 is
returned only for out-of-range cells. -/
theorem c10_empty_cell_code (b : CSV_BUFFER) (hwf : BufWF b) :
    (∀ (row entry n : Nat) (dest : List Char) (r : List CSV_FIELD)
      (f : CSV_FIELD), b.field.get? row = some r → r.get? entry = some f →
      f.text = [] → 1 ≤ n → (csv_get_field dest n b row entry).1 = 0) ∧
    (∀ (row entry n : Nat) (dest : List Char),
      (csv_get_field dest n b row entry).1 = 2 →
      b.field.length ≤ row ∨ (b.field.getD row []).length ≤ entry) := by
  constructor
  · intro row entry n dest r f hrow hentry htext hn
    have hrl : row < b.field.length := (List.get?_eq_some.mp hrow).1
    have hel : entry < r.length := (List.get?_eq_some.mp hentry).1
    have hgr : b.field.getD row [] = r := getD_of_get? _ _ _ _ hrow
    have hgf : (b.field.getD row []).getD entry create_field = f := by
      rw [hgr]; exact getD_of_get? _ _ _ _ hentry
    have hcond : ¬(row ≥ b.field.length ∨ entry ≥ (b.field.getD row []).length) := by
      rw [hgr]; omega
    have hf : FieldWF f := hwf r (List.get?_mem hrow) f (List.get?_mem hentry)
    have hlen : f.length = 1 := by rw [hf, htext]; simp
    rw [csv_get_field, if_neg (by omega), if_neg hcond, hgf,
      if_neg (by omega), if_neg (by omega)]
  · intro row entry n dest h2
    by_cases hn : n = 0
    · rw [csv_get_field, if_pos hn] at h2
      omega
    · by_cases hcond : row ≥ b.field.length ∨ entry ≥ (b.field.getD row []).length
      · omega
      · exfalso
        push_neg at hcond
        obtain ⟨hrl, hel⟩ := hcond
        have hrow : ∃ r, b.field.get? row = some r := by
          rw [List.get?_eq_getElem?]
          exact ⟨b.field[row], List.getElem?_eq_getElem hrl⟩
        obtain ⟨r, hrow⟩ := hrow
        have hgr : b.field.getD row [] = r := getD_of_get? _ _ _ _ hrow
        rw [hgr] at hel
        have hentry : ∃ f, r.get? entry = some f := by
          rw [List.get?_eq_getElem?]
          exact ⟨r[entry], List.getElem?_eq_getElem hel⟩
        obtain ⟨f, hentry⟩ := hentry
        have hgf : (b.field.getD row []).getD entry create_field = f := by
          rw [hgr]; exact getD_of_get? _ _ _ _ hentry
        have hf : FieldWF f := hwf r (List.get?_mem hrow) f (List.get?_mem hentry)
        rw [csv_get_field, if_neg hn, if_neg (by rw [hgr]; omega), hgf] at h2
        by_cases hb : f.length > n + 1
        · rw [if_pos hb] at h2
          omega
        · rw [if_neg hb, if_neg (by rw [hf]; omega)] at h2
          omega

/-- C10, witness: an in-range empty cell reads back with code 0, and the
concrete instance of the code-2 implication. -/
theorem c10_empty_cell_code_witness :
    (csv_get_field ['x', 'x'] 2
      { field := [[⟨[], 1⟩]], field_delim := ',', text_delim := '"' } 0 0).1 = 0 :=
  (c10_empty_cell_code
    { field := [[⟨[], 1⟩]], field_delim := ',', text_delim := '"' }
    (by decide)).1 0 0 2 ['x', 'x'] [⟨[], 1⟩] ⟨[], 1⟩ rfl rfl rfl (by decide)

/-- C8: the claim fails on the code for a zero-row buffer: the guard
`row > buffer->rows - 1` underflows in size_t arithmetic, so instead of
returning 0 both queries read through the NULL width / field arrays
(modelled as `none`, an undefined read), while on a buffer with at least
one row an out-of-range row does yield 0. -/
theorem c8_out_of_range_queries_bug :
    csv_get_width csv_create_buffer 0 = none ∧
    csv_get_field_length csv_create_buffer 0 0 = none ∧
    csv_get_width (CSV_BUFFER.mk [[⟨[], 1⟩]] ',' '"') 5 = some 0 ∧
    csv_get_field_length (CSV_BUFFER.mk [[⟨[], 1⟩]] ',' '"') 0 7 = some 0 := by
  decide

/-!
## Claim C9 (stream closed on every exit path)
-/

/-- C9: the claim fails on the code: when the very first `append_row`
allocation fails during `csv_load` (oracle `[false]`), the function
returns the resource-error code 2 from inside the loop without ever
calling `fclose` (third component `false`), whereas the success path does
close the stream. -/
theorem c9_fclose_leak :
    (csv_load [false] csv_create_buffer ['a']).2 = (2, false) ∧
    (csv_load [] csv_create_buffer ['a']).2 = (0, true) := by
  decide

/-!
## Claim C7 (csv_set_field postconditions)
-/

theorem getD_eq_get? {α : Type} (l : List α) (n : Nat) (d : α) :
    l.getD n d = (l.get? n).getD d := by
  simp [List.getD_eq_getElem?_getD, List.get?_eq_getElem?]

theorem getD_set_self {α : Type} (l : List α) (n : Nat) (a d : α)
    (h : n < l.length) : (l.set n a).getD n d = a := by
  rw [getD_eq_get?, List.get?_set_eq_of_lt a h]
  rfl

theorem getD_set_other {α : Type} (l : List α) (n m : Nat) (a d : α)
    (h : n ≠ m) : (l.set n a).getD m d = l.getD m d := by
  rw [getD_eq_get?, List.get?_set_ne a l h, getD_eq_get?]

theorem getD_append_left {α : Type} (l1 l2 : List α) (n : Nat) (d : α)
    (h : n < l1.length) : (l1 ++ l2).getD n d = l1.getD n d := by
  rw [getD_eq_get?, List.get?_append h, getD_eq_get?]

theorem growTo_length (rows : List (List CSV_FIELD)) (row : Nat) :
    (growTo rows row).length = max rows.length (row + 1) := by
  unfold growTo
  simp
  omega

theorem growTo_getD_left (rows : List (List CSV_FIELD)) (row n : Nat)
    (h : n < rows.length) : (growTo rows row).getD n [] = rows.getD n [] := by
  unfold growTo
  exact getD_append_left rows _ n [] h

/-- C7: after `csv_set_field rows row entry t` the buffer has height at
least row + 1, row `row` has width at least entry + 1, cell
(row, entry) holds exactly the text `t` (as a freshly set field), and
every cell that existed before the call other than (row, entry) is
unchanged.  (In the model allocation succeeds, so the call always
succeeds, matching the claim's premise.) -/
theorem c7_set_field (rows : List (List CSV_FIELD)) (row entry : Nat)
    (t : List Char) :
    row + 1 ≤ (csv_set_field rows row entry t).length ∧
    entry + 1 ≤ ((csv_set_field rows row entry t).getD row []).length ∧
    ((csv_set_field rows row entry t).getD row []).getD entry create_field
      = set_field create_field t ∧
    (∀ r e, r < rows.length → e < (rows.getD r []).length →
      (r ≠ row ∨ e ≠ entry) →
      ((csv_set_field rows row entry t).getD r []).getD e create_field
        = (rows.getD r []).getD e create_field) := by
  have hlen1 : (growTo rows row).length = max rows.length (row + 1) :=
    growTo_length rows row
  have hrowlt : row < (growTo rows row).length := by omega
  refine ⟨?_, ?_, ?_, ?_⟩
  · unfold csv_set_field
    rw [List.length_set]
    omega
  · unfold csv_set_field
    rw [getD_set_self _ _ _ _ hrowlt, List.length_set]
    simp
    omega
  · unfold csv_set_field
    rw [getD_set_self _ _ _ _ hrowlt]
    have hel : entry <
        ((growTo rows row).getD row [] ++
          List.replicate (entry + 1 - ((growTo rows row).getD row []).length)
            create_field).length := by
      simp
      omega
    exact getD_set_self _ _ _ _ hel
  · intro r e hr he hne
    unfold csv_set_field
    by_cases hrr : r = row
    · subst hrr
      have hee : e ≠ entry := by
        rcases hne with h | h
        · exact absurd rfl h
        · exact h
      rw [getD_set_self _ _ _ _ hrowlt, getD_set_other _ _ _ _ _ (fun h => hee h.symm)]
      rw [growTo_getD_left rows r r hr]
      exact getD_append_left _ _ e create_field he
    · rw [getD_set_other _ _ _ _ _ (fun h => hrr h.symm)]
      exact congrArg (fun l => List.getD l e create_field)
        (growTo_getD_left rows row r hr)

/-- C7, witness: setting cell (1, 1) of a one-row buffer grows it to two
rows, the second of width two, writes the text, and leaves the old cell
(0, 0) untouched. -/
theorem c7_set_field_witness :
    1 + 1 ≤ (csv_set_field [[⟨['a'], 2⟩]] 1 1 ['z']).length ∧
    1 + 1 ≤ ((csv_set_field [[⟨['a'], 2⟩]] 1 1 ['z']).getD 1 []).length ∧
    ((csv_set_field [[⟨['a'], 2⟩]] 1 1 ['z']).getD 1 []).getD 1 create_field
      = set_field create_field ['z'] ∧
    ((csv_set_field [[⟨['a'], 2⟩]] 1 1 ['z']).getD 0 []).getD 0 create_field
      = ([[⟨['a'], 2⟩]].getD 0 []).getD 0 create_field :=
  ⟨(c7_set_field [[⟨['a'], 2⟩]] 1 1 ['z']).1,
   (c7_set_field [[⟨['a'], 2⟩]] 1 1 ['z']).2.1,
   (c7_set_field [[⟨['a'], 2⟩]] 1 1 ['z']).2.2.1,
   (c7_set_field [[⟨['a'], 2⟩]] 1 1 ['z']).2.2.2 0 0 (by decide) (by decide)
     (Or.inl (by decide))⟩

/-!
## Claim C6 (width invariant)
-/

theorem allW_set (rows : List (List CSV_FIELD)) (n : Nat)
    (x : List CSV_FIELD) (h : allWidthsPos rows) (hx : 1 ≤ x.length) :
    allWidthsPos (rows.set n x) := by
  intro r hr
  rcases List.mem_or_eq_of_mem_set hr with hmem | rfl
  · exact h r hmem
  · exact hx

theorem allW_growTo (rows : List (List CSV_FIELD)) (row : Nat)
    (h : allWidthsPos rows) : allWidthsPos (growTo rows row) := by
  intro r hr
  rcases List.mem_append.mp hr with hmem | hmem
  · exact h r hmem
  · rw [List.eq_of_mem_replicate hmem]
    simp

theorem allW_append_row (rows : List (List CSV_FIELD))
    (h : allWidthsPos rows) : allWidthsPos (append_row rows) := by
  intro r hr
  rcases List.mem_append.mp hr with hmem | hmem
  · exact h r hmem
  · simp at hmem
    rw [hmem]
    simp

theorem allW_append_field (rows : List (List CSV_FIELD)) (row : Nat)
    (h : allWidthsPos rows) : allWidthsPos (append_field rows row) := by
  unfold append_field
  split_ifs with h1
  · exact h
  · unfold listModify
    cases hg : rows.get? row with
    | none => exact h
    | some r =>
      refine allW_set rows row _ h ?_
      simp

theorem allW_remove_last_field (rows out : List (List CSV_FIELD)) (row : Nat)
    (h : allWidthsPos rows) (hout : remove_last_field rows row = some out) :
    allWidthsPos out := by
  unfold remove_last_field at hout
  split_ifs at hout with h1
  · cases hout
    exact h
  · split at hout
    · cases hout
    · next r hg =>
      have hr1 : 1 ≤ r.length := h r (List.get?_mem hg)
      split_ifs at hout with h2 h3
      · cases hout
        exact h
      · cases hout
        refine allW_set rows row _ h ?_
        simp [h3]
      · cases hout
        refine allW_set rows row _ h ?_
        rw [List.length_dropLast]
        omega

theorem allW_csv_set_field (rows : List (List CSV_FIELD)) (row entry : Nat)
    (t : List Char) (h : allWidthsPos rows) :
    allWidthsPos (csv_set_field rows row entry t) := by
  unfold csv_set_field
  refine allW_set _ row _ (allW_growTo rows row h) ?_
  rw [List.length_set]
  simp
  omega

theorem allW_remove_last_row (rows out : List (List CSV_FIELD))
    (h : allWidthsPos rows) (hout : remove_last_row rows = some out) :
    allWidthsPos out := by
  unfold remove_last_row at hout
  split at hout
  · cases hout
  · cases hout
    intro x hx
    exact h x (List.mem_of_mem_dropLast hx)

theorem allW_clear_row (rows out : List (List CSV_FIELD)) (row : Nat)
    (h : allWidthsPos rows) (hout : csv_clear_row rows row = some out) :
    allWidthsPos out := by
  unfold csv_clear_row at hout
  by_cases h1 : row = sizeSub1 rows.length
  · rw [if_pos h1] at hout
    exact allW_remove_last_row rows out h hout
  · rw [if_neg h1] at hout
    cases hg : rows.get? row with
    | none => rw [hg] at hout; cases hout
    | some r =>
      rw [hg] at hout
      replace hout : (if r.length = 0 then none
          else some (rows.set row [set_field create_field []])) = some out := hout
      by_cases h2 : r.length = 0
      · rw [if_pos h2] at hout
        cases hout
      · rw [if_neg h2] at hout
        cases hout
        exact allW_set rows row _ h (by simp)

theorem allW_clear_field (rows out : List (List CSV_FIELD)) (row entry : Nat)
    (h : allWidthsPos rows) (hout : csv_clear_field rows row entry = some out) :
    allWidthsPos out := by
  unfold csv_clear_field at hout
  by_cases h1 : rows.length < row + 1
  · rw [if_pos h1] at hout
    cases hout
    exact h
  · rw [if_neg h1] at hout
    replace hout : (if (rows.getD row []).length < entry + 1 then some rows
        else if entry = (rows.getD row []).length - 1 ∧ entry ≠ 0 then
          remove_last_field rows row
        else some (rows.set row ((rows.getD row []).set entry
          (set_field create_field [])))) = some out := hout
    by_cases h2 : (rows.getD row []).length < entry + 1
    · rw [if_pos h2] at hout
      cases hout
      exact h
    · rw [if_neg h2] at hout
      by_cases h3 : entry = (rows.getD row []).length - 1 ∧ entry ≠ 0
      · rw [if_pos h3] at hout
        exact allW_remove_last_field rows out row h hout
      · rw [if_neg h3] at hout
        cases hout
        refine allW_set rows row _ h ?_
        rw [List.length_set]
        omega

theorem allW_copy_row_same (rows out : List (List CSV_FIELD))
    (dest_row src_row : Nat) (h : allWidthsPos rows)
    (hout : csv_copy_row_same rows dest_row src_row = some out) :
    allWidthsPos out := by
  unfold csv_copy_row_same at hout
  by_cases h1 : src_row > sizeSub1 rows.length
  · rw [if_pos h1] at hout
    exact allW_clear_row rows out dest_row h hout
  · rw [if_neg h1] at hout
    replace hout : (match (growTo rows dest_row).get? src_row with
        | none => none
        | some srcR =>
          if srcR.length = 0 ∧ ((growTo rows dest_row).getD dest_row []).length ≠ 0
          then none
          else some ((growTo rows dest_row).set dest_row
            (srcR.map (fun f => set_field f f.text)))) = some out := hout
    cases hg : (growTo rows dest_row).get? src_row with
    | none => rw [hg] at hout; cases hout
    | some srcR =>
      rw [hg] at hout
      replace hout : (if srcR.length = 0 ∧
            ((growTo rows dest_row).getD dest_row []).length ≠ 0 then none
          else some ((growTo rows dest_row).set dest_row
            (srcR.map (fun f => set_field f f.text)))) = some out := hout
      by_cases h2 : srcR.length = 0 ∧
          ((growTo rows dest_row).getD dest_row []).length ≠ 0
      · rw [if_pos h2] at hout
        cases hout
      · rw [if_neg h2] at hout
        cases hout
        refine allW_set _ dest_row _ (allW_growTo rows dest_row h) ?_
        rw [List.length_map]
        exact allW_growTo rows dest_row h srcR (List.get?_mem hg)

theorem allW_removeRowLoop (k : Nat) :
    ∀ (rows out : List (List CSV_FIELD)) (i : Nat), allWidthsPos rows →
    removeRowLoop rows i k = some out → allWidthsPos out := by
  induction k with
  | zero =>
    intro rows out i h hout
    cases hout
    exact h
  | succ k ih =>
    intro rows out i h hout
    rw [removeRowLoop] at hout
    cases hc : csv_copy_row_same rows i (i + 1) with
    | none => rw [hc] at hout; cases hout
    | some rows1 =>
      rw [hc, Option.some_bind] at hout
      exact ih rows1 out (i + 1)
        (allW_copy_row_same rows rows1 i (i + 1) h hc) hout

theorem allW_remove_row (rows out : List (List CSV_FIELD)) (row : Nat)
    (h : allWidthsPos rows) (hout : csv_remove_row rows row = some out) :
    allWidthsPos out := by
  unfold csv_remove_row at hout
  split_ifs at hout with h1
  · cases hout
    exact h
  · split at hout
    · cases hout
    · next rows1 hl =>
      exact allW_remove_last_row rows1 out
        (allW_removeRowLoop _ rows rows1 row h hl) hout

theorem allW_remove_field (rows out : List (List CSV_FIELD)) (row entry : Nat)
    (h : allWidthsPos rows) (hout : csv_remove_field rows row entry = some out) :
    allWidthsPos out := by
  unfold csv_remove_field at hout
  by_cases h1 : row > sizeSub1 rows.length
  · rw [if_pos h1] at hout
    cases hout
    exact h
  · rw [if_neg h1] at hout
    cases hg : rows.get? row with
    | none => rw [hg] at hout; cases hout
    | some r =>
      rw [hg] at hout
      have hr1 : 1 ≤ r.length := h r (List.get?_mem hg)
      replace hout : (if entry > sizeSub1 r.length then some rows
          else if r.length = 0 then none
          else remove_last_field (rows.set row (r.take entry
            ++ (r.drop (entry + 1)).map (fun f => set_field f f.text)
            ++ r.drop (r.length - 1))) row) = some out := hout
      by_cases h2 : entry > sizeSub1 r.length
      · rw [if_pos h2] at hout
        cases hout
        exact h
      · rw [if_neg h2] at hout
        rw [if_neg (by omega)] at hout
        refine allW_remove_last_field _ out row ?_ hout
        refine allW_set rows row _ h ?_
        simp
        omega

theorem allW_insert_field (rows out : List (List CSV_FIELD)) (row entry : Nat)
    (t : List Char) (h : allWidthsPos rows)
    (hout : csv_insert_field rows row entry t = some out) :
    allWidthsPos out := by
  unfold csv_insert_field at hout
  by_cases h1 : row > sizeSub1 rows.length
  · rw [if_pos h1] at hout
    cases hout
    exact allW_csv_set_field rows row entry t h
  · rw [if_neg h1] at hout
    cases hg : rows.get? row with
    | none => rw [hg] at hout; cases hout
    | some r =>
      rw [hg] at hout
      replace hout : (if entry > sizeSub1 r.length
          then some (csv_set_field rows row entry t)
          else some (csv_set_field (rows.set row (r.take (entry + 1)
            ++ (r.drop entry).map (fun f => set_field f f.text)))
            row entry t)) = some out := hout
      by_cases h2 : entry > sizeSub1 r.length
      · rw [if_pos h2] at hout
        cases hout
        exact allW_csv_set_field rows row entry t h
      · rw [if_neg h2] at hout
        cases hout
        refine allW_csv_set_field _ row entry t ?_
        refine allW_set rows row _ h ?_
        have hr1 : 1 ≤ r.length := h r (List.get?_mem hg)
        simp
        omega

/-- C6: starting from any buffer whose rows all have width at least 1,
each of the nine mutators — append_row, append_field, remove_last_field,
csv_set_field, csv_insert_field, csv_remove_field, csv_clear_field,
csv_clear_row and csv_remove_row — leaves every row of the resulting
buffer with width at least 1 (for the fallible mutators, whenever the C
code reaches a defined result at all). -/
theorem c6_width_invariant :
    (∀ rows, allWidthsPos rows → allWidthsPos (append_row rows)) ∧
    (∀ rows row, allWidthsPos rows → allWidthsPos (append_field rows row)) ∧
    (∀ rows out row, allWidthsPos rows → remove_last_field rows row = some out →
      allWidthsPos out) ∧
    (∀ rows row entry t, allWidthsPos rows →
      allWidthsPos (csv_set_field rows row entry t)) ∧
    (∀ rows out row entry t, allWidthsPos rows →
      csv_insert_field rows row entry t = some out → allWidthsPos out) ∧
    (∀ rows out row entry, allWidthsPos rows →
      csv_remove_field rows row entry = some out → allWidthsPos out) ∧
    (∀ rows out row entry, allWidthsPos rows →
      csv_clear_field rows row entry = some out → allWidthsPos out) ∧
    (∀ rows out row, allWidthsPos rows →
      csv_clear_row rows row = some out → allWidthsPos out) ∧
    (∀ rows out row, allWidthsPos rows →
      csv_remove_row rows row = some out → allWidthsPos out) :=
  ⟨fun rows h => allW_append_row rows h,
   fun rows row h => allW_append_field rows row h,
   fun rows out row h hout => allW_remove_last_field rows out row h hout,
   fun rows row entry t h => allW_csv_set_field rows row entry t h,
   fun rows out row entry t h hout => allW_insert_field rows out row entry t h hout,
   fun rows out row entry h hout => allW_remove_field rows out row entry h hout,
   fun rows out row entry h hout => allW_clear_field rows out row entry h hout,
   fun rows out row h hout => allW_clear_row rows out row h hout,
   fun rows out row h hout => allW_remove_row rows out row h hout⟩

/-- C6, witness: removing row 0 of a two-row width-1 buffer leaves a
buffer whose single row still has width 1. -/
theorem c6_width_invariant_witness :
    csv_remove_row [[⟨['a'], 2⟩], [⟨['b'], 2⟩]] 0 = some [[⟨['b'], 2⟩]] ∧
    allWidthsPos [[⟨['b'], 2⟩]] :=
  ⟨by decide,
   c6_width_invariant.2.2.2.2.2.2.2.2 [[⟨['a'], 2⟩], [⟨['b'], 2⟩]]
     [[⟨['b'], 2⟩]] 0 (by decide) (by decide)⟩
